import Mathlib

/-!
Verification of the trend/anomaly core of the GAS_prices_pipeline repository.

The embedding models:
  * `src/src/processing/analyzer.py`  (`DataAnalyzer.calculate_daily_trends`)
  * `src/src/processing/anomaly.py`   (`AnomalyDetector.detect_price_anomalies`)
  * `src/src/dags/fuel_price_dag.py`  (`check_thresholds_task`)

Prices (SQL floats) are embedded as exact rationals; the z-score, which the
code obtains by dividing by `statistics.pstdev` (a square root), lives in `ℝ`.
Timestamps (`recorded_at`, the server clock `now`) are integers; the start of a
calendar day is the floor of the clock to a multiple of `dayLen`.
The database is embedded as the list of stored rows; each SQL query of the
source becomes the corresponding filter/group/aggregate on that list.
-/

namespace GasPrices

/-- One row of the `fuel_prices` table, restricted to the columns the
trend/anomaly core reads.  `fuel_type` and `region` are nullable string
columns, `price` a nullable numeric column, `recorded_at` the required
event timestamp. -/
structure Obs where
  fuel_type : Option String
  region : Option String
  price : Option ℚ
  recorded_at : ℤ
deriving DecidableEq

/-- Length of one calendar day on the embedded integer clock. -/
def dayLen : ℤ := 86400

/-- `datetime(now.year, now.month, now.day)`: the start of the calendar day
containing the clock reading `now` (floor to a day boundary). -/
def todayStart (now : ℤ) : ℤ := dayLen * (now.fdiv dayLen)

/-- Python `round(x, 4)` needs round-half-to-even to the nearest integer
after scaling; this is that integer rounding on `ℚ`. -/
def bankersRound (q : ℚ) : ℤ :=
  let n := ⌊q⌋
  let r := q - n
  if r < 1/2 then n
  else if 1/2 < r then n + 1
  else if n % 2 = 0 then n else n + 1

/-- Python `round(x, 4)` on an exact rational. -/
def round4 (q : ℚ) : ℚ := (bankersRound (q * 10000) : ℚ) / 10000

/-- `x` has at most 4 decimal places: it is an integer multiple of `1/10000`. -/
def fourdp (q : ℚ) : Prop := ∃ n : ℤ, q = (n : ℚ) / 10000

/-! ## Trend calculator (`DataAnalyzer.calculate_daily_trends`) -/

/-- Grouping key of the analyzer's SQL queries: the raw, possibly-NULL
`(fuel_type, region)` columns. -/
def rawKey (o : Obs) : Option String × Option String := (o.fuel_type, o.region)

/-- SQL `AVG(price)` over one group followed by Python's
`float(row.avg_price or 0.0)`: NULL prices are ignored by `AVG`, and a group
whose prices are all NULL yields `0`. -/
def sqlAvg (ps : List ℚ) : ℚ := if ps = [] then 0 else ps.sum / ps.length

/-- Rows matched by the today query: `recorded_at >= today_start`
(the query has no upper bound). -/
def todayRows (store : List Obs) (tStart : ℤ) : List Obs :=
  store.filter (fun o => decide (tStart ≤ o.recorded_at))

/-- Rows matched by the yesterday query:
`yesterday_start <= recorded_at < today_start`. -/
def yesterdayRows (store : List Obs) (yStart tStart : ℤ) : List Obs :=
  store.filter (fun o => decide (yStart ≤ o.recorded_at ∧ o.recorded_at < tStart))

/-- The distinct keys of a grouped query result (`GROUP BY fuel_type, region`). -/
def groupKeys (rows : List Obs) : List (Option String × Option String) :=
  (rows.map rawKey).dedup

/-- The average price reported for one group of a grouped query result. -/
def groupAvg (rows : List Obs) (k : Option String × Option String) : ℚ :=
  sqlAvg ((rows.filter (fun o => decide (rawKey o = k))).filterMap Obs.price)

/-- One emitted trend record (the dict built per key in
`calculate_daily_trends`). -/
structure Trend where
  fuel_type : Option String
  region : Option String
  current_price : ℚ
  yesterday_price : ℚ
  day_change : ℚ
  day_change_percent : ℚ
deriving DecidableEq

/-- Body of the per-key loop of `calculate_daily_trends`: given the key, the
today average and the prior (yesterday or fallback) average, build the trend
dict.  `day_change_percent` guards on a falsy (zero) prior. -/
def mkTrend (k : Option String × Option String) (current yesterday : ℚ) : Trend :=
  let day_change := current - yesterday
  let pct := if yesterday ≠ 0 then day_change / yesterday * 100 else 0
  ⟨k.1, k.2, round4 current, round4 yesterday, round4 day_change, round4 pct⟩

/-- The today average for key `k` (`today_map`, with `float(avg or 0.0)`). -/
def currentPrice (store : List Obs) (now : ℤ) (k : Option String × Option String) : ℚ :=
  groupAvg (todayRows store (todayStart now)) k

/-- `yesterday_map.get(key, current_price)`: the yesterday average when the
key has yesterday observations, otherwise the today average. -/
def priorPrice (store : List Obs) (now : ℤ) (k : Option String × Option String) : ℚ :=
  if k ∈ groupKeys (yesterdayRows store (todayStart now - dayLen) (todayStart now))
  then groupAvg (yesterdayRows store (todayStart now - dayLen) (todayStart now)) k
  else currentPrice store now k

/-- `DataAnalyzer.calculate_daily_trends`, as a function of the store
contents and the clock reading `now`. -/
def calculate_daily_trends (store : List Obs) (now : ℤ) : List Trend :=
  (groupKeys (todayRows store (todayStart now))).map
    (fun k => mkTrend k (currentPrice store now k) (priorPrice store now k))

/-! ## Threshold check (`check_thresholds_task`) -/

/-- One price-change alert (the dict built in `check_thresholds_task`). -/
structure Alert where
  fuel_type : Option String
  region : Option String
  change_percent : ℚ
  current_price : ℚ
deriving DecidableEq

/-- The alert dict built from one trend. -/
def mkAlert (t : Trend) : Alert :=
  ⟨t.fuel_type, t.region, t.day_change_percent, t.current_price⟩

/-- `check_thresholds_task`: keep the trends whose absolute day change
percentage strictly exceeds the fixed 5% threshold. -/
def check_thresholds (trends : List Trend) : List Alert :=
  trends.filterMap
    (fun t => if 5 < |t.day_change_percent| then some (mkAlert t) else none)

/-! ## Anomaly detector (`AnomalyDetector.detect_price_anomalies`) -/

/-- Python `column or 'unknown'` on a nullable string column: both `None`
and the empty string are falsy and normalize to `"unknown"`. -/
def orUnknown : Option String → String
  | none => "unknown"
  | some s => if s = "" then "unknown" else s

/-- The detector's grouping key:
`(row.fuel_type or 'unknown', row.region or 'unknown')`. -/
def normKey (o : Obs) : String × String := (orUnknown o.fuel_type, orUnknown o.region)

/-- Comparison used by `sorted(series, key=lambda r: r.recorded_at)`. -/
def timeLE (a b : Obs) : Prop := a.recorded_at ≤ b.recorded_at

instance : DecidableRel timeLE :=
  fun a b => inferInstanceAs (Decidable (a.recorded_at ≤ b.recorded_at))

instance : IsTotal Obs timeLE := ⟨fun _ _ => Int.le_total _ _⟩

instance : IsTrans Obs timeLE := ⟨fun _ _ _ => Int.le_trans⟩

/-- `sorted(series, key=lambda r: r.recorded_at)` (a stable sort). -/
def sortByTime (l : List Obs) : List Obs := l.insertionSort timeLE

/-- `[float(r.price) for r in series if r.price is not None]` applied to the
time-sorted series: the valid prices in ascending `recorded_at` order. -/
def sortedPrices (series : List Obs) : List ℚ := (sortByTime series).filterMap Obs.price

/-- Python `prices[-history_size:]` for a nonnegative `history_size`
(`prices[-0:]` is the whole list). -/
def lastWindow (hist : ℕ) (ps : List ℚ) : List ℚ :=
  if hist = 0 then ps else ps.drop (ps.length - hist)

/-- `statistics.mean`. -/
def listMean (ps : List ℚ) : ℚ := ps.sum / ps.length

/-- The square of `statistics.pstdev`: population variance (divide by N). -/
def pvarianceQ (ps : List ℚ) : ℚ :=
  ((ps.map (fun p => (p - listMean ps) ^ 2)).sum) / ps.length

/-- One emitted anomaly record (the dict built in `detect_price_anomalies`).
The z-score is real-valued since the code divides by a square root. -/
structure Anomaly where
  fuel_type : String
  region : String
  latest_price : ℚ
  baseline_mean : ℚ
  z_score : ℝ
  anomaly_type : String

open Classical in
/-- Round-half-to-even integer rounding on `ℝ` (as in `bankersRound`). -/
noncomputable def bankersRoundR (x : ℝ) : ℤ :=
  let n := ⌊x⌋
  let r := x - n
  if r < 1/2 then n
  else if 1/2 < r then n + 1
  else if n % 2 = 0 then n else n + 1

/-- Python `round(x, 4)` on the real-valued z-score. -/
noncomputable def round4R (x : ℝ) : ℝ := (bankersRoundR (x * 10000) : ℝ) / 10000

/-- `x` has at most 4 decimal places (real-valued fields). -/
def fourdpR (x : ℝ) : Prop := ∃ n : ℤ, x = (n : ℝ) / 10000

open Classical in
/-- Body of the per-series loop of `detect_price_anomalies`: sort the series
by time, drop NULL prices, guard on sample count, window size and zero
standard deviation, then emit iff `abs(z) >= z_threshold`. -/
noncomputable def detectSeries (z_threshold : ℝ) (hist : ℕ) (fuel region : String)
    (series : List Obs) : Option Anomaly :=
  let prices := sortedPrices series
  if prices.length < 5 then none
  else
    let baseline := lastWindow hist prices
    if baseline.length < 2 then none
    else
      let avg := listMean baseline
      let sigma := Real.sqrt ((pvarianceQ baseline : ℚ) : ℝ)
      if sigma = 0 then none
      else
        let latest := prices.getLastD 0
        let z : ℝ := (((latest : ℚ) : ℝ) - ((avg : ℚ) : ℝ)) / sigma
        if z_threshold ≤ |z| then
          some ⟨fuel, region, round4 latest, round4 avg, round4R z,
            if 0 < z then "spike" else "drop"⟩
        else none

/-- The distinct normalized keys of the fetched rows, i.e. the key set of the
`grouped` dict. -/
def detectKeys (rows : List Obs) : List (String × String) :=
  (rows.map normKey).dedup

/-- The rows of one series in fetch order, i.e. `grouped[key]`. -/
def seriesFor (rows : List Obs) (k : String × String) : List Obs :=
  rows.filter (fun o => decide (normKey o = k))

/-- `AnomalyDetector.detect_price_anomalies`, as a function of the fetched
rows (the bounded recent history the opening query returns). -/
noncomputable def detect_price_anomalies (z_threshold : ℝ) (hist : ℕ)
    (rows : List Obs) : List Anomaly :=
  (detectKeys rows).filterMap
    (fun k => detectSeries z_threshold hist k.1 k.2 (seriesFor rows k))

/-- The z-score the code computes for one series: latest valid price minus the
population mean of the baseline window, divided by the population standard
deviation of that window. -/
noncomputable def zValue (hist : ℕ) (series : List Obs) : ℝ :=
  ((((sortedPrices series).getLastD 0 : ℚ) : ℝ)
      - ((listMean (lastWindow hist (sortedPrices series)) : ℚ) : ℝ))
    / Real.sqrt ((pvarianceQ (lastWindow hist (sortedPrices series)) : ℚ) : ℝ)

/-! ## Specification-side definitions for the claimed query windows -/

/-- Written from the specification text, for comparison with the code's
today query: the average over observations with
`today_start <= recorded_at < now` (half-open upper bound at the clock
reading), grouped by the raw key.  The code's query has no upper bound. -/
def specTodayAvg (store : List Obs) (tStart now : ℤ)
    (k : Option String × Option String) : ℚ :=
  sqlAvg (((store.filter
      (fun o => decide (tStart ≤ o.recorded_at ∧ o.recorded_at < now))).filter
    (fun o => decide (rawKey o = k))).filterMap Obs.price)

/-- Written from the specification text: the keys present in the claimed
`[today_start, now)` aggregation. -/
def specTodayKeys (store : List Obs) (tStart now : ℤ) :
    List (Option String × Option String) :=
  ((store.filter
      (fun o => decide (tStart ≤ o.recorded_at ∧ o.recorded_at < now))).map rawKey).dedup

/-! ## Concrete test fixtures -/

/-- A five-observation series for key `(petrol, Nairobi)`: four prices of 100
followed by a price of 130 (population variance 144, z-score 2). -/
def rowsA : List Obs :=
  [⟨some "petrol", some "Nairobi", some 100, 1⟩,
   ⟨some "petrol", some "Nairobi", some 100, 2⟩,
   ⟨some "petrol", some "Nairobi", some 100, 3⟩,
   ⟨some "petrol", some "Nairobi", some 100, 4⟩,
   ⟨some "petrol", some "Nairobi", some 130, 5⟩]

/-- A four-observation series (insufficient sample count). -/
def rows4 : List Obs :=
  [⟨some "diesel", some "Mombasa", some 100, 1⟩,
   ⟨some "diesel", some "Mombasa", some 101, 2⟩,
   ⟨some "diesel", some "Mombasa", some 150, 3⟩,
   ⟨some "diesel", some "Mombasa", some 103, 4⟩]

/-- A store with a single observation recorded during day 1. -/
def storeB : List Obs := [⟨some "petrol", some "Nairobi", some 10, 86500⟩]

/-- A store with a single observation recorded 60 seconds after the clock
reading `86460`, i.e. inside the code's today window but outside the claimed
half-open interval `[today_start, now)`. -/
def cexStore : List Obs := [⟨some "petrol", some "Nairobi", some 10, 86520⟩]

/-- The trend record emitted for `storeB` on day 1: no yesterday data, so the
prior falls back to the current average. -/
def trendB : Trend := ⟨some "petrol", some "Nairobi", 10, 10, 0, 0⟩

/-- The anomaly record the detector emits for `rowsA` (mean 106, population
standard deviation 12, z-score 2) whenever the threshold is at most 2. -/
noncomputable def anomalyA : Anomaly := ⟨"petrol", "Nairobi", 130, 106, 2, "spike"⟩

/-! ## Basic lemmas about the embedded primitives -/

lemma round4_fourdp (q : ℚ) : fourdp (round4 q) :=
  ⟨bankersRound (q * 10000), rfl⟩

lemma round4R_fourdpR (x : ℝ) : fourdpR (round4R x) :=
  ⟨bankersRoundR (x * 10000), rfl⟩

lemma round4_zero : round4 0 = 0 := by
  norm_num [round4, bankersRound]

lemma pvarianceQ_nonneg (ps : List ℚ) : 0 ≤ pvarianceQ ps := by
  unfold pvarianceQ
  refine div_nonneg (List.sum_nonneg ?_) (Nat.cast_nonneg _)
  intro x hx
  obtain ⟨p, _, rfl⟩ := List.mem_map.mp hx
  positivity

lemma sigma_eq_zero_iff (ps : List ℚ) :
    Real.sqrt ((pvarianceQ ps : ℚ) : ℝ) = 0 ↔ pvarianceQ ps = 0 := by
  rw [Real.sqrt_eq_zero']
  constructor
  · intro h
    have h' : (pvarianceQ ps : ℝ) ≤ 0 := h
    have h0 : (0 : ℝ) ≤ (pvarianceQ ps : ℝ) := by
      exact_mod_cast pvarianceQ_nonneg ps
    have : (pvarianceQ ps : ℝ) = 0 := le_antisymm h' h0
    exact_mod_cast this
  · intro h
    rw [h]
    simp

lemma getLastD_congr {α : Type} {l : List α} (h : l ≠ []) (d₁ d₂ : α) :
    l.getLastD d₁ = l.getLastD d₂ := by
  induction l with
  | nil => exact absurd rfl h
  | cons x xs ih =>
    cases xs with
    | nil => rfl
    | cons y ys =>
      rw [List.getLastD_cons d₁ x (y :: ys), List.getLastD_cons d₂ x (y :: ys)]

lemma getLastD_drop {α : Type} {l : List α} {n : ℕ} (h : l.drop n ≠ []) (d : α) :
    (l.drop n).getLastD d = l.getLastD d := by
  induction l generalizing n with
  | nil => simp at h
  | cons x xs ih =>
    cases n with
    | zero => rfl
    | succ m =>
      simp only [List.drop_succ_cons] at h ⊢
      rw [ih h, List.getLastD_cons, getLastD_congr ?_ x d]
      intro hnil
      rw [hnil, List.drop_nil] at h
      exact h rfl

/-- The last element of the baseline window is the last element of the price
series: the latest price is itself part of the baseline. -/
lemma lastWindow_getLastD {hist : ℕ} {ps : List ℚ}
    (h : lastWindow hist ps ≠ []) :
    (lastWindow hist ps).getLastD 0 = ps.getLastD 0 := by
  unfold lastWindow at h ⊢
  by_cases h0 : hist = 0
  · rw [if_pos h0]
  · rw [if_neg h0] at h ⊢
    exact getLastD_drop h 0

/-! ## Claim theorems -/

/-- C6: `calculate_daily_trends` emits exactly one Trend for each
`(fuel_type, region)` key present in the today aggregation (the emitted key
sequence is exactly the distinct today keys, which are duplicate-free), and
hence emits no Trend for any key present only in the yesterday aggregation. -/
theorem one_trend_per_today_key (store : List Obs) (now : ℤ) :
    (calculate_daily_trends store now).map (fun t => (t.fuel_type, t.region))
        = groupKeys (todayRows store (todayStart now))
    ∧ (groupKeys (todayRows store (todayStart now))).Nodup := by
  constructor
  · unfold calculate_daily_trends
    rw [List.map_map]
    rw [show ((fun t : Trend => (t.fuel_type, t.region))
          ∘ fun k => mkTrend k (currentPrice store now k) (priorPrice store now k)) = id
        from funext fun k => rfl]
    exact List.map_id _
  · exact List.nodup_dedup _

/-- C9: within one calendar day the trend calculation is a pure function of
the store contents: two calls whose clock readings fall on the same day (and
with the same store) return identical output. -/
theorem trends_same_day_deterministic (store : List Obs) (now₁ now₂ : ℤ)
    (h : now₁.fdiv dayLen = now₂.fdiv dayLen) :
    calculate_daily_trends store now₁ = calculate_daily_trends store now₂ := by
  have ht : todayStart now₁ = todayStart now₂ := by
    unfold todayStart
    rw [h]
  simp only [calculate_daily_trends, currentPrice, priorPrice, ht]

/-- C9 witness: two clock readings of day 1 give identical trends on a
concrete store. -/
theorem trends_same_day_deterministic_witness :
    (86460 : ℤ).fdiv dayLen = (87000 : ℤ).fdiv dayLen
    ∧ calculate_daily_trends storeB 86460 = calculate_daily_trends storeB 87000 :=
  ⟨by decide, trends_same_day_deterministic storeB 86460 87000 (by decide)⟩

/-- C7: `check_thresholds_task` emits an alert for a trend iff its absolute
day change percentage strictly exceeds 5; on the trend built from today's
average 212.36 and yesterday's average 200.00 the day change is 12.36, the
percentage 6.18, and the alert fires. -/
theorem threshold_alert_iff_over_five_percent :
    (∀ (trends : List Trend) (a : Alert),
        a ∈ check_thresholds trends
          ↔ ∃ t ∈ trends, 5 < |t.day_change_percent| ∧ a = mkAlert t)
    ∧ (mkTrend (some "petrol", some "Nairobi") 212.36 200).day_change = 12.36
    ∧ (mkTrend (some "petrol", some "Nairobi") 212.36 200).day_change_percent = 6.18
    ∧ check_thresholds [mkTrend (some "petrol", some "Nairobi") 212.36 200]
        = [mkAlert (mkTrend (some "petrol", some "Nairobi") 212.36 200)] := by
  have hdc : (mkTrend (some "petrol", some "Nairobi") 212.36 200).day_change = 12.36 := by
    norm_num [mkTrend, round4, bankersRound]
  have hpct : (mkTrend (some "petrol", some "Nairobi") 212.36 200).day_change_percent
      = 6.18 := by
    norm_num [mkTrend, round4, bankersRound]
  refine ⟨?_, hdc, hpct, ?_⟩
  · intro trends a
    unfold check_thresholds
    rw [List.mem_filterMap]
    constructor
    · rintro ⟨t, ht, hf⟩
      by_cases hc : 5 < |t.day_change_percent|
      · rw [if_pos hc] at hf
        exact ⟨t, ht, hc, (Option.some.inj hf).symm⟩
      · rw [if_neg hc] at hf
        exact Option.noConfusion hf
    · rintro ⟨t, ht, hc, rfl⟩
      exact ⟨t, ht, if_pos hc⟩
  · unfold check_thresholds
    rw [List.filterMap_cons, List.filterMap_nil]
    rw [if_pos (by rw [hpct, abs_of_nonneg (by norm_num : (0:ℚ) ≤ 6.18)]; norm_num)]

/-- Evaluation of the trend calculator on the one-observation store. -/
lemma calculate_storeB : calculate_daily_trends storeB 86460 = [trendB] := by
  have h1 : groupKeys (todayRows storeB (todayStart 86460))
      = [(some "petrol", some "Nairobi")] := by decide
  have h2 : groupKeys (yesterdayRows storeB (todayStart 86460 - dayLen) (todayStart 86460))
      = [] := by decide
  have hcur : currentPrice storeB 86460 (some "petrol", some "Nairobi") = 10 := by
    unfold currentPrice groupAvg
    rw [show ((todayRows storeB (todayStart 86460)).filter
          (fun o => decide (rawKey o = (some "petrol", some "Nairobi")))).filterMap Obs.price
        = [10] from by decide]
    norm_num [sqlAvg]
  have hpri : priorPrice storeB 86460 (some "petrol", some "Nairobi") = 10 := by
    unfold priorPrice
    rw [h2, if_neg (by simp)]
    exact hcur
  unfold calculate_daily_trends
  rw [h1, List.map_cons, List.map_nil, hcur, hpri]
  norm_num [mkTrend, trendB, round4, bankersRound]

/-- C2: a trend for a key with today data but no yesterday data falls back to
the current price (yesterday_price = current_price, zero change, zero change
percent), and a zero prior price yields a zero change percent rather than a
division error. -/
theorem trend_missing_yesterday_fallback (store : List Obs) (now : ℤ) (t : Trend)
    (hmem : t ∈ calculate_daily_trends store now) :
    ((t.fuel_type, t.region)
        ∉ groupKeys (yesterdayRows store (todayStart now - dayLen) (todayStart now)) →
      t.yesterday_price = t.current_price ∧ t.day_change = 0 ∧ t.day_change_percent = 0)
    ∧ (priorPrice store now (t.fuel_type, t.region) = 0 → t.day_change_percent = 0) := by
  unfold calculate_daily_trends at hmem
  obtain ⟨k, hk, rfl⟩ := List.mem_map.mp hmem
  have hkey : ((mkTrend k (currentPrice store now k) (priorPrice store now k)).fuel_type,
      (mkTrend k (currentPrice store now k) (priorPrice store now k)).region) = k := rfl
  rw [hkey]
  constructor
  · intro hny
    have hp : priorPrice store now k = currentPrice store now k := by
      unfold priorPrice
      rw [if_neg hny]
    refine ⟨?_, ?_, ?_⟩
    · show round4 (priorPrice store now k) = round4 (currentPrice store now k)
      rw [hp]
    · show round4 (currentPrice store now k - priorPrice store now k) = 0
      rw [hp, sub_self, round4_zero]
    · show round4 (if priorPrice store now k ≠ 0 then
            (currentPrice store now k - priorPrice store now k)
              / priorPrice store now k * 100
          else 0) = 0
      rw [hp, sub_self]
      simp [round4_zero]
  · intro hz
    show round4 (if priorPrice store now k ≠ 0 then
          (currentPrice store now k - priorPrice store now k)
            / priorPrice store now k * 100
        else 0) = 0
    rw [hz]
    simp [round4_zero]

/-- C2 witness: on the one-observation store the emitted trend has no
yesterday key, and the fallback fields hold. -/
theorem trend_missing_yesterday_fallback_witness :
    trendB ∈ calculate_daily_trends storeB 86460
    ∧ (((trendB.fuel_type, trendB.region)
          ∉ groupKeys (yesterdayRows storeB (todayStart 86460 - dayLen) (todayStart 86460)) →
        trendB.yesterday_price = trendB.current_price
          ∧ trendB.day_change = 0 ∧ trendB.day_change_percent = 0)
       ∧ (priorPrice storeB 86460 (trendB.fuel_type, trendB.region) = 0 →
          trendB.day_change_percent = 0)) :=
  have hmem : trendB ∈ calculate_daily_trends storeB 86460 := by
    rw [calculate_storeB]
    exact List.mem_singleton.mpr rfl
  ⟨hmem, trend_missing_yesterday_fallback storeB 86460 trendB hmem⟩

/-- Fusing the two SQL-side filters and the NULL-price drop into a single
pass over the store. -/
lemma filter_filter_filterMap (l : List Obs) (p q : Obs → Prop)
    [DecidablePred p] [DecidablePred q] :
    ((l.filter (fun o => decide (p o))).filter (fun o => decide (q o))).filterMap Obs.price
      = l.filterMap (fun o => if p o ∧ q o then o.price else none) := by
  induction l with
  | nil => rfl
  | cons x xs ih =>
    by_cases hp : p x <;> by_cases hq : q x <;>
      simp [List.filter_cons, List.filterMap_cons, hp, hq, ih, -List.filter_filter]

/-- C4 (amended): the today aggregation for a key averages exactly the
observations with `recorded_at ≥ today_start` — with no upper bound at the
query moment — and the yesterday aggregation exactly those with
`yesterday_start ≤ recorded_at < today_start`. -/
theorem trend_window_characterization (store : List Obs) (tStart yStart : ℤ)
    (k : Option String × Option String) :
    groupAvg (todayRows store tStart) k
        = sqlAvg (store.filterMap
            (fun o => if tStart ≤ o.recorded_at ∧ rawKey o = k then o.price else none))
    ∧ groupAvg (yesterdayRows store yStart tStart) k
        = sqlAvg (store.filterMap
            (fun o => if (yStart ≤ o.recorded_at ∧ o.recorded_at < tStart) ∧ rawKey o = k
              then o.price else none)) := by
  constructor
  · unfold groupAvg todayRows
    rw [filter_filter_filterMap store (fun o => tStart ≤ o.recorded_at)
      (fun o => rawKey o = k)]
  · unfold groupAvg yesterdayRows
    rw [filter_filter_filterMap store
      (fun o => yStart ≤ o.recorded_at ∧ o.recorded_at < tStart) (fun o => rawKey o = k)]

/-- C4 counterexample: an observation recorded 60 seconds after the clock
reading `now = 86460` is outside the claimed half-open window
`[today_start, now)` but contributes to the code's today aggregation: the
code's average differs from the specification-side average, and the key is
present in the code's aggregation but absent from the specification-side
one. -/
theorem today_window_upper_bound_cex :
    groupAvg (todayRows cexStore (todayStart 86460)) (some "petrol", some "Nairobi")
        ≠ specTodayAvg cexStore (todayStart 86460) 86460 (some "petrol", some "Nairobi")
    ∧ (some "petrol", some "Nairobi") ∈ groupKeys (todayRows cexStore (todayStart 86460))
    ∧ (some "petrol", some "Nairobi") ∉ specTodayKeys cexStore (todayStart 86460) 86460 := by
  refine ⟨?_, by decide, by decide⟩
  have h1 : groupAvg (todayRows cexStore (todayStart 86460)) (some "petrol", some "Nairobi")
      = 10 := by
    unfold groupAvg
    rw [show ((todayRows cexStore (todayStart 86460)).filter
          (fun o => decide (rawKey o = (some "petrol", some "Nairobi")))).filterMap Obs.price
        = [10] from by decide]
    norm_num [sqlAvg]
  have h2 : specTodayAvg cexStore (todayStart 86460) 86460 (some "petrol", some "Nairobi")
      = 0 := by
    unfold specTodayAvg
    rw [show (((cexStore.filter (fun o =>
            decide (todayStart 86460 ≤ o.recorded_at ∧ o.recorded_at < 86460))).filter
          (fun o => decide (rawKey o = (some "petrol", some "Nairobi")))).filterMap Obs.price)
        = [] from by decide]
    norm_num [sqlAvg]
  rw [h1, h2]
  norm_num

/-! ## Detector lemmas -/

/-- With all three guards passing, `detectSeries` reduces to the final
threshold test on the z-score. -/
lemma detectSeries_of_guards (z : ℝ) (hist : ℕ) (f r : String) (s : List Obs)
    (h5 : ¬ (sortedPrices s).length < 5)
    (h2 : ¬ (lastWindow hist (sortedPrices s)).length < 2)
    (hσ : ¬ Real.sqrt ((pvarianceQ (lastWindow hist (sortedPrices s)) : ℚ) : ℝ) = 0) :
    detectSeries z hist f r s
      = if z ≤ |zValue hist s| then
          some ⟨f, r, round4 ((sortedPrices s).getLastD 0),
            round4 (listMean (lastWindow hist (sortedPrices s))),
            round4R (zValue hist s),
            if 0 < zValue hist s then "spike" else "drop"⟩
        else none := by
  simp only [detectSeries, zValue]
  rw [if_neg h5, if_neg h2, if_neg hσ]

lemma detectSeries_skip5 (z : ℝ) (hist : ℕ) (f r : String) (s : List Obs)
    (h5 : (sortedPrices s).length < 5) : detectSeries z hist f r s = none := by
  simp only [detectSeries]
  rw [if_pos h5]

lemma detectSeries_skip2 (z : ℝ) (hist : ℕ) (f r : String) (s : List Obs)
    (h5 : ¬ (sortedPrices s).length < 5)
    (h2 : (lastWindow hist (sortedPrices s)).length < 2) :
    detectSeries z hist f r s = none := by
  simp only [detectSeries]
  rw [if_neg h5, if_pos h2]

lemma detectSeries_skipVar (z : ℝ) (hist : ℕ) (f r : String) (s : List Obs)
    (h5 : ¬ (sortedPrices s).length < 5)
    (h2 : ¬ (lastWindow hist (sortedPrices s)).length < 2)
    (hv : pvarianceQ (lastWindow hist (sortedPrices s)) = 0) :
    detectSeries z hist f r s = none := by
  simp only [detectSeries]
  rw [if_neg h5, if_neg h2, if_pos ((sigma_eq_zero_iff _).mpr hv)]

/-- Everything an emitted anomaly record determines about its series. -/
lemma detectSeries_shape {z : ℝ} {hist : ℕ} {f r : String} {s : List Obs}
    {a : Anomaly} (h : detectSeries z hist f r s = some a) :
    a.fuel_type = f ∧ a.region = r
    ∧ a.latest_price = round4 ((sortedPrices s).getLastD 0)
    ∧ a.baseline_mean = round4 (listMean (lastWindow hist (sortedPrices s)))
    ∧ a.z_score = round4R (zValue hist s)
    ∧ a.anomaly_type = (if 0 < zValue hist s then "spike" else "drop")
    ∧ ¬ (sortedPrices s).length < 5
    ∧ ¬ (lastWindow hist (sortedPrices s)).length < 2
    ∧ pvarianceQ (lastWindow hist (sortedPrices s)) ≠ 0
    ∧ z ≤ |zValue hist s| := by
  by_cases h5 : (sortedPrices s).length < 5
  · rw [detectSeries_skip5 z hist f r s h5] at h
    exact Option.noConfusion h
  by_cases h2 : (lastWindow hist (sortedPrices s)).length < 2
  · rw [detectSeries_skip2 z hist f r s h5 h2] at h
    exact Option.noConfusion h
  by_cases hv : pvarianceQ (lastWindow hist (sortedPrices s)) = 0
  · rw [detectSeries_skipVar z hist f r s h5 h2 hv] at h
    exact Option.noConfusion h
  have hσ : ¬ Real.sqrt ((pvarianceQ (lastWindow hist (sortedPrices s)) : ℚ) : ℝ) = 0 :=
    fun hh => hv ((sigma_eq_zero_iff _).mp hh)
  rw [detectSeries_of_guards z hist f r s h5 h2 hσ] at h
  by_cases ht : z ≤ |zValue hist s|
  · rw [if_pos ht] at h
    obtain rfl := (Option.some.inj h).symm
    exact ⟨rfl, rfl, rfl, rfl, rfl, rfl, h5, h2, hv, ht⟩
  · rw [if_neg ht] at h
    exact Option.noConfusion h

lemma detectSeries_emits (z : ℝ) (hist : ℕ) (f r : String) (s : List Obs)
    (h5 : ¬ (sortedPrices s).length < 5)
    (h2 : ¬ (lastWindow hist (sortedPrices s)).length < 2)
    (hv : pvarianceQ (lastWindow hist (sortedPrices s)) ≠ 0)
    (ht : z ≤ |zValue hist s|) :
    detectSeries z hist f r s
      = some ⟨f, r, round4 ((sortedPrices s).getLastD 0),
          round4 (listMean (lastWindow hist (sortedPrices s))),
          round4R (zValue hist s),
          if 0 < zValue hist s then "spike" else "drop"⟩ := by
  rw [detectSeries_of_guards z hist f r s h5 h2
    (fun hh => hv ((sigma_eq_zero_iff _).mp hh)), if_pos ht]

lemma mem_detect_iff {z : ℝ} {hist : ℕ} {rows : List Obs} {a : Anomaly} :
    a ∈ detect_price_anomalies z hist rows
      ↔ ∃ k, k ∈ detectKeys rows
          ∧ detectSeries z hist k.1 k.2 (seriesFor rows k) = some a := by
  simp only [detect_price_anomalies, List.mem_filterMap]

lemma map_key_filterMap (keys : List (String × String))
    (f : String × String → Option Anomaly)
    (hf : ∀ k a, f k = some a → (a.fuel_type, a.region) = k) :
    (keys.filterMap f).map (fun a => (a.fuel_type, a.region))
      = keys.filter (fun k => (f k).isSome) := by
  induction keys with
  | nil => rfl
  | cons k ks ih =>
    cases hfk : f k with
    | none => simp [List.filterMap_cons, List.filter_cons, hfk, ih]
    | some a => simp [List.filterMap_cons, List.filter_cons, hfk, ih, hf k a hfk]

/-- The key sequence of the emitted anomalies is a sublist of the distinct
series keys. -/
lemma detect_map_key (z : ℝ) (hist : ℕ) (rows : List Obs) :
    (detect_price_anomalies z hist rows).map (fun a => (a.fuel_type, a.region))
      = (detectKeys rows).filter
          (fun k => (detectSeries z hist k.1 k.2 (seriesFor rows k)).isSome) := by
  unfold detect_price_anomalies
  refine map_key_filterMap _ _ (fun k a h => ?_)
  obtain ⟨h1, h2, -⟩ := detectSeries_shape h
  rw [h1, h2]

/-- C1: for a series passing the three preconditions, an anomaly for its key
is emitted iff `z_threshold ≤ |z|`, with `z` the latest price minus the
population mean of the last `history_size` prices (sorted ascending by
`recorded_at`), divided by the population standard deviation; an emitted
anomaly is a spike iff `z > 0` (drop for `z ≤ 0`); and the latest price is
itself the last entry of the baseline window. -/
theorem anomaly_emitted_iff_zscore_threshold (rows : List Obs) (z_threshold : ℝ)
    (hist : ℕ) (k : String × String)
    (hmem : k ∈ detectKeys rows)
    (h5 : 5 ≤ (sortedPrices (seriesFor rows k)).length)
    (h2 : 2 ≤ (lastWindow hist (sortedPrices (seriesFor rows k))).length)
    (hvar : pvarianceQ (lastWindow hist (sortedPrices (seriesFor rows k))) ≠ 0) :
    ((∃ a ∈ detect_price_anomalies z_threshold hist rows,
        (a.fuel_type, a.region) = k)
      ↔ z_threshold ≤ |zValue hist (seriesFor rows k)|)
    ∧ (∀ a ∈ detect_price_anomalies z_threshold hist rows,
        (a.fuel_type, a.region) = k →
          a.anomaly_type
              = (if 0 < zValue hist (seriesFor rows k) then "spike" else "drop")
            ∧ a.latest_price = round4 ((sortedPrices (seriesFor rows k)).getLastD 0)
            ∧ a.baseline_mean
                = round4 (listMean (lastWindow hist (sortedPrices (seriesFor rows k))))
            ∧ a.z_score = round4R (zValue hist (seriesFor rows k)))
    ∧ (lastWindow hist (sortedPrices (seriesFor rows k))).getLastD 0
        = (sortedPrices (seriesFor rows k)).getLastD 0 := by
  have h5' : ¬ (sortedPrices (seriesFor rows k)).length < 5 := Nat.not_lt.mpr h5
  have h2' : ¬ (lastWindow hist (sortedPrices (seriesFor rows k))).length < 2 :=
    Nat.not_lt.mpr h2
  refine ⟨⟨?_, ?_⟩, ?_, ?_⟩
  · rintro ⟨a, ha, hak⟩
    obtain ⟨k', hk', hsome⟩ := mem_detect_iff.mp ha
    obtain ⟨hf, hr, -, -, -, -, -, -, -, ht⟩ := detectSeries_shape hsome
    have hkk : k' = k := by rw [← hak, hf, hr]
    subst hkk
    exact ht
  · intro ht
    exact ⟨_, mem_detect_iff.mpr
      ⟨k, hmem, detectSeries_emits z_threshold hist k.1 k.2 (seriesFor rows k)
        h5' h2' hvar ht⟩, rfl⟩
  · intro a ha hak
    obtain ⟨k', hk', hsome⟩ := mem_detect_iff.mp ha
    obtain ⟨hf, hr, hlp, hbm, hzs, hty, -⟩ := detectSeries_shape hsome
    have hkk : k' = k := by rw [← hak, hf, hr]
    subst hkk
    exact ⟨hty, hlp, hbm, hzs⟩
  · apply lastWindow_getLastD
    intro hnil
    rw [hnil] at h2
    simp at h2

/-- C1 witness: on the concrete spike series the key passes all
preconditions and an anomaly is emitted at threshold 2. -/
theorem anomaly_emitted_iff_zscore_threshold_witness :
    (("petrol", "Nairobi") ∈ detectKeys rowsA
      ∧ 5 ≤ (sortedPrices (seriesFor rowsA ("petrol", "Nairobi"))).length
      ∧ 2 ≤ (lastWindow 30 (sortedPrices (seriesFor rowsA ("petrol", "Nairobi")))).length
      ∧ pvarianceQ (lastWindow 30 (sortedPrices (seriesFor rowsA ("petrol", "Nairobi")))) ≠ 0)
    ∧ ((∃ a ∈ detect_price_anomalies 2 30 rowsA,
          (a.fuel_type, a.region) = ("petrol", "Nairobi"))
        ↔ (2 : ℝ) ≤ |zValue 30 (seriesFor rowsA ("petrol", "Nairobi"))|) :=
  have hv : pvarianceQ (lastWindow 30 (sortedPrices (seriesFor rowsA ("petrol", "Nairobi")))) ≠ 0 := by
    rw [show lastWindow 30 (sortedPrices (seriesFor rowsA ("petrol", "Nairobi")))
        = [100, 100, 100, 100, 130] from by decide]
    norm_num [pvarianceQ, listMean]
  ⟨⟨by decide, by decide, by decide, hv⟩,
    (anomaly_emitted_iff_zscore_threshold rowsA 2 30 ("petrol", "Nairobi")
      (by decide) (by decide) (by decide) hv).1⟩

/-- C3: a series with fewer than 5 valid prices, a baseline window shorter
than 2, or a zero-variance baseline is skipped, and no anomaly is emitted
for its key (the z-score division is never reached). -/
theorem anomaly_skips_insufficient_series (z : ℝ) (hist : ℕ) (rows : List Obs)
    (k : String × String)
    (h : (sortedPrices (seriesFor rows k)).length < 5
       ∨ (lastWindow hist (sortedPrices (seriesFor rows k))).length < 2
       ∨ pvarianceQ (lastWindow hist (sortedPrices (seriesFor rows k))) = 0) :
    detectSeries z hist k.1 k.2 (seriesFor rows k) = none
    ∧ ∀ a ∈ detect_price_anomalies z hist rows, (a.fuel_type, a.region) ≠ k := by
  have hnone : detectSeries z hist k.1 k.2 (seriesFor rows k) = none := by
    by_cases h5 : (sortedPrices (seriesFor rows k)).length < 5
    · exact detectSeries_skip5 z hist k.1 k.2 _ h5
    by_cases h2 : (lastWindow hist (sortedPrices (seriesFor rows k))).length < 2
    · exact detectSeries_skip2 z hist k.1 k.2 _ h5 h2
    rcases h with h' | h' | h'
    · exact absurd h' h5
    · exact absurd h' h2
    · exact detectSeries_skipVar z hist k.1 k.2 _ h5 h2 h'
  refine ⟨hnone, ?_⟩
  intro a ha hak
  obtain ⟨k', hk', hsome⟩ := mem_detect_iff.mp ha
  obtain ⟨hf, hr, -⟩ := detectSeries_shape hsome
  have hkk : k' = k := by rw [← hak, hf, hr]
  subst hkk
  rw [hnone] at hsome
  exact Option.noConfusion hsome

/-- C3 witness: the four-price series is skipped and emits nothing. -/
theorem anomaly_skips_insufficient_series_witness :
    ((sortedPrices (seriesFor rows4 ("diesel", "Mombasa"))).length < 5
       ∨ (lastWindow 30 (sortedPrices (seriesFor rows4 ("diesel", "Mombasa")))).length < 2
       ∨ pvarianceQ (lastWindow 30 (sortedPrices (seriesFor rows4 ("diesel", "Mombasa")))) = 0)
    ∧ (detectSeries 3 30 "diesel" "Mombasa" (seriesFor rows4 ("diesel", "Mombasa")) = none
       ∧ ∀ a ∈ detect_price_anomalies 3 30 rows4,
          (a.fuel_type, a.region) ≠ ("diesel", "Mombasa")) :=
  ⟨Or.inl (by decide),
    anomaly_skips_insufficient_series 3 30 rows4 ("diesel", "Mombasa") (Or.inl (by decide))⟩

/-- In a time-sorted row list with at least one valid price, the last entry
of the valid-price projection comes from a row whose `recorded_at` is
maximal among the valid rows. -/
lemma exists_last_price (l : List Obs) (hs : List.Sorted timeLE l)
    (h : l.filterMap Obs.price ≠ []) :
    ∃ o, o ∈ l ∧ o.price = some ((l.filterMap Obs.price).getLastD 0)
      ∧ ∀ o' ∈ l, o'.price ≠ none → o'.recorded_at ≤ o.recorded_at := by
  induction l with
  | nil => simp at h
  | cons x xs ih =>
    obtain ⟨hhead, htail⟩ := List.sorted_cons.mp hs
    cases hxp : x.price with
    | none =>
      have hfm : (x :: xs).filterMap Obs.price = xs.filterMap Obs.price := by
        simp [List.filterMap_cons, hxp]
      rw [hfm] at h ⊢
      obtain ⟨o, ho, hop, hmax⟩ := ih htail h
      refine ⟨o, List.mem_cons_of_mem _ ho, hop, ?_⟩
      intro o' ho' hne
      rcases List.mem_cons.mp ho' with rfl | h'
      · exact absurd hxp hne
      · exact hmax o' h' hne
    | some p =>
      have hfm : (x :: xs).filterMap Obs.price = p :: xs.filterMap Obs.price := by
        simp [List.filterMap_cons, hxp]
      by_cases hxs : xs.filterMap Obs.price = []
      · have hget : ((x :: xs).filterMap Obs.price).getLastD 0 = p := by
          rw [hfm, hxs]
          rfl
        refine ⟨x, List.mem_cons_self x xs, by rw [hget, hxp], ?_⟩
        intro o' ho' hne
        rcases List.mem_cons.mp ho' with rfl | h'
        · exact le_refl _
        · exact absurd (List.filterMap_eq_nil_iff.mp hxs o' h') hne
      · obtain ⟨o, ho, hop, hmax⟩ := ih htail hxs
        have hget : ((x :: xs).filterMap Obs.price).getLastD 0
            = (xs.filterMap Obs.price).getLastD 0 := by
          rw [hfm, List.getLastD_cons, getLastD_congr hxs p 0]
        refine ⟨o, List.mem_cons_of_mem _ ho, by rw [hget]; exact hop, ?_⟩
        intro o' ho' hne
        rcases List.mem_cons.mp ho' with rfl | h'
        · exact hhead o ho
        · exact hmax o' h' hne

/-- C10: one detector run emits at most one anomaly per normalized
`(fuel_type, region)` key, and an emitted anomaly's `latest_price` is the
(rounded) price of a most recently recorded valid observation of its
series. -/
theorem at_most_one_anomaly_per_key (z : ℝ) (hist : ℕ) (rows : List Obs) :
    ((detect_price_anomalies z hist rows).map (fun a => (a.fuel_type, a.region))).Nodup
    ∧ ∀ a ∈ detect_price_anomalies z hist rows,
        ∃ o, o ∈ rows ∧ o.price ≠ none ∧ normKey o = (a.fuel_type, a.region)
          ∧ a.latest_price = round4 (o.price.getD 0)
          ∧ ∀ o' ∈ rows, normKey o' = (a.fuel_type, a.region) → o'.price ≠ none →
              o'.recorded_at ≤ o.recorded_at := by
  constructor
  · rw [detect_map_key]
    exact (List.nodup_dedup _).filter _
  · intro a ha
    obtain ⟨k, hk, hsome⟩ := mem_detect_iff.mp ha
    obtain ⟨hf, hr, hlp, -, -, -, h5, -⟩ := detectSeries_shape hsome
    have hkey : (a.fuel_type, a.region) = k := by rw [hf, hr]
    have hnn : (sortByTime (seriesFor rows k)).filterMap Obs.price ≠ [] := by
      intro hnil
      have hlen : (sortedPrices (seriesFor rows k)).length = 0 := by
        unfold sortedPrices
        rw [hnil]
        rfl
      omega
    have hsorted : List.Sorted timeLE (sortByTime (seriesFor rows k)) :=
      List.sorted_insertionSort timeLE _
    obtain ⟨o, ho, hop, hmax⟩ := exists_last_price _ hsorted hnn
    have homem : o ∈ rows.filter (fun x => decide (normKey x = k)) := by
      have hm : o ∈ seriesFor rows k := by
        unfold sortByTime at ho
        exact (List.mem_insertionSort timeLE).mp ho
      exact hm
    have horows : o ∈ rows := List.mem_of_mem_filter homem
    have hokey : normKey o = k := by
      have hpk := List.of_mem_filter homem
      simp only [decide_eq_true_eq] at hpk
      exact hpk
    refine ⟨o, horows, ?_, ?_, ?_, ?_⟩
    · rw [hop]
      simp
    · rw [hkey]
      exact hokey
    · rw [hlp, hop]
      rfl
    · intro o' ho' hko' hne
      rw [hkey] at hko'
      have ho's : o' ∈ seriesFor rows k := by
        show o' ∈ rows.filter (fun x => decide (normKey x = k))
        exact List.mem_filter.mpr ⟨ho', decide_eq_true hko'⟩
      refine hmax o' ?_ hne
      unfold sortByTime
      exact (List.mem_insertionSort timeLE).mpr ho's

/-! ## Evaluating the detector on the concrete spike series -/

lemma bankersRoundR_intCast (n : ℤ) : bankersRoundR ((n : ℤ) : ℝ) = n := by
  simp only [bankersRoundR, Int.floor_intCast, sub_self]
  rw [if_pos (by norm_num : (0 : ℝ) < 1 / 2)]

lemma round4R_two : round4R (2 : ℝ) = 2 := by
  have h : (2 : ℝ) * 10000 = ((20000 : ℤ) : ℝ) := by norm_num
  unfold round4R
  rw [h, bankersRoundR_intCast]
  norm_num

lemma detectSeries_rowsA (t : ℝ) (ht : t ≤ 2) :
    detectSeries t 30 "petrol" "Nairobi" rowsA = some anomalyA := by
  have hps : sortedPrices rowsA = [100, 100, 100, 100, 130] := by decide
  have hlw : lastWindow 30 (sortedPrices rowsA) = [100, 100, 100, 100, 130] := by
    rw [hps]
    decide
  have h5 : ¬ (sortedPrices rowsA).length < 5 := by
    rw [hps]
    decide
  have h2 : ¬ (lastWindow 30 (sortedPrices rowsA)).length < 2 := by
    rw [hlw]
    decide
  have hm : listMean (lastWindow 30 (sortedPrices rowsA)) = 106 := by
    rw [hlw]
    norm_num [listMean]
  have hv : pvarianceQ (lastWindow 30 (sortedPrices rowsA)) = 144 := by
    rw [hlw]
    norm_num [pvarianceQ, listMean]
  have hvne : pvarianceQ (lastWindow 30 (sortedPrices rowsA)) ≠ 0 := by
    rw [hv]
    norm_num
  have hlast : (sortedPrices rowsA).getLastD 0 = 130 := by
    rw [hps]
    rfl
  have hz : zValue 30 rowsA = 2 := by
    unfold zValue
    rw [hlast, hm, hv]
    rw [show ((144 : ℚ) : ℝ) = 12 ^ 2 by norm_num]
    rw [Real.sqrt_sq (by norm_num : (0 : ℝ) ≤ 12)]
    norm_num
  have h130 : round4 130 = 130 := by norm_num [round4, bankersRound]
  have h106 : round4 106 = 106 := by norm_num [round4, bankersRound]
  rw [detectSeries_emits t 30 "petrol" "Nairobi" rowsA h5 h2 hvne
    (by rw [hz, show |(2 : ℝ)| = 2 from by norm_num]; exact ht)]
  rw [hz, hlast, hm, h130, h106, round4R_two,
    if_pos (by norm_num : (0 : ℝ) < 2)]
  rfl

lemma detect_rowsA (t : ℝ) (ht : t ≤ 2) :
    detect_price_anomalies t 30 rowsA = [anomalyA] := by
  unfold detect_price_anomalies
  rw [show detectKeys rowsA = [("petrol", "Nairobi")] from by decide]
  simp only [List.filterMap_cons, List.filterMap_nil]
  rw [show seriesFor rowsA ("petrol", "Nairobi") = rowsA from by decide]
  rw [detectSeries_rowsA t ht]

/-- C5: the code performs no validation of `z_threshold`: a non-positive
threshold is accepted and used directly in the z-score comparison, so on the
concrete spike series the call with threshold `-1` runs to completion and
emits an anomaly instead of raising a configuration error. -/
theorem nonpositive_threshold_not_rejected :
    detect_price_anomalies (-1) 30 rowsA = [anomalyA] :=
  detect_rowsA (-1) (by norm_num)

/-- C8: every numeric field the core emits is rounded to 4 decimal places:
the four trend fields and the anomaly's latest price, baseline mean and
z-score are all integer multiples of 1/10000. -/
theorem outputs_rounded_to_4dp :
    (∀ (store : List Obs) (now : ℤ), ∀ t ∈ calculate_daily_trends store now,
        fourdp t.current_price ∧ fourdp t.yesterday_price
          ∧ fourdp t.day_change ∧ fourdp t.day_change_percent)
    ∧ ∀ (z : ℝ) (hist : ℕ) (rows : List Obs),
        ∀ a ∈ detect_price_anomalies z hist rows,
          fourdp a.latest_price ∧ fourdp a.baseline_mean ∧ fourdpR a.z_score := by
  constructor
  · intro store now t hmem
    unfold calculate_daily_trends at hmem
    obtain ⟨k, hk, rfl⟩ := List.mem_map.mp hmem
    exact ⟨round4_fourdp _, round4_fourdp _, round4_fourdp _, round4_fourdp _⟩
  · intro z hist rows a ha
    obtain ⟨k, hk, hsome⟩ := mem_detect_iff.mp ha
    obtain ⟨-, -, hlp, hbm, hzs, -⟩ := detectSeries_shape hsome
    refine ⟨?_, ?_, ?_⟩
    · rw [hlp]
      exact round4_fourdp _
    · rw [hbm]
      exact round4_fourdp _
    · rw [hzs]
      exact round4R_fourdpR _

/-- C8 witness: the concrete emitted trend and anomaly have all numeric
fields on the 1/10000 grid. -/
theorem outputs_rounded_to_4dp_witness :
    (trendB ∈ calculate_daily_trends storeB 86460
      ∧ fourdp trendB.current_price ∧ fourdp trendB.yesterday_price
      ∧ fourdp trendB.day_change ∧ fourdp trendB.day_change_percent)
    ∧ (anomalyA ∈ detect_price_anomalies 2 30 rowsA
      ∧ fourdp anomalyA.latest_price ∧ fourdp anomalyA.baseline_mean
      ∧ fourdpR anomalyA.z_score) :=
  have hmemT : trendB ∈ calculate_daily_trends storeB 86460 := by
    rw [calculate_storeB]
    exact List.mem_singleton.mpr rfl
  have hmemA : anomalyA ∈ detect_price_anomalies 2 30 rowsA := by
    rw [detect_rowsA 2 le_rfl]
    exact List.mem_singleton.mpr rfl
  ⟨⟨hmemT, outputs_rounded_to_4dp.1 storeB 86460 trendB hmemT⟩,
   ⟨hmemA, outputs_rounded_to_4dp.2 2 30 rowsA anomalyA hmemA⟩⟩

/-- C10 witness: on the concrete spike series the emitted key list is
duplicate-free and the emitted anomaly's latest price comes from the most
recent valid observation. -/
theorem at_most_one_anomaly_per_key_witness :
    ((detect_price_anomalies 2 30 rowsA).map (fun a => (a.fuel_type, a.region))).Nodup
    ∧ (anomalyA ∈ detect_price_anomalies 2 30 rowsA
       ∧ ∃ o, o ∈ rowsA ∧ o.price ≠ none
          ∧ normKey o = (anomalyA.fuel_type, anomalyA.region)
          ∧ anomalyA.latest_price = round4 (o.price.getD 0)
          ∧ ∀ o' ∈ rowsA, normKey o' = (anomalyA.fuel_type, anomalyA.region) →
              o'.price ≠ none → o'.recorded_at ≤ o.recorded_at) :=
  have hmemA : anomalyA ∈ detect_price_anomalies 2 30 rowsA := by
    rw [detect_rowsA 2 le_rfl]
    exact List.mem_singleton.mpr rfl
  ⟨(at_most_one_anomaly_per_key 2 30 rowsA).1,
   hmemA, (at_most_one_anomaly_per_key 2 30 rowsA).2 anomalyA hmemA⟩

end GasPrices
